import Mathlib

/-!
Verification of the changelog-action repository: a shallow embedding of the
string-manipulation core (`src/sumarize-changelog.js`), the GitHub helpers
(`github-utils.js`) and the orchestrating `run` function (`index.js`) as pure
Lean functions, followed by theorems settling the specification claims.

Strings are modelled as `List Char` (JavaScript strings are sequences of
code units; every string in play here is plain text).  External network
calls are modelled as explicit function parameters returning `Except`.
-/

/-- JavaScript strings are modelled as lists of characters. -/
abbrev Str := List Char

/-- Embed a Lean string literal as a character list. -/
def lit (s : String) : Str := s.toList

/-- The character class `\s` of JavaScript regular expressions, and the set of
characters removed by `String.prototype.trim`. -/
def jsSpace (c : Char) : Bool :=
  c = ' ' || c = '\t' || c = '\n' || c = '\r' || c.val = 11 || c.val = 12 ||
  c.val = 0xA0 || c.val = 0x1680 || (0x2000 ≤ c.val && c.val ≤ 0x200A) ||
  c.val = 0x2028 || c.val = 0x2029 || c.val = 0x202F || c.val = 0x205F ||
  c.val = 0x3000 || c.val = 0xFEFF

/-- The character class `\d` (ASCII digits). -/
def isDig (c : Char) : Bool := '0' ≤ c && c ≤ '9'

/-- `startsWithL n s` is JavaScript `s.startsWith(n)`. -/
def startsWithL : Str → Str → Bool
  | [], _ => true
  | _ :: _, [] => false
  | a :: as, b :: bs => a == b && startsWithL as bs

/-- `containsSub n h` is JavaScript `h.includes(n)`. -/
def containsSub (n : Str) : Str → Bool
  | [] => startsWithL n []
  | c :: t => startsWithL n (c :: t) || containsSub n t

/-- `indexOfSub n h` is JavaScript `h.indexOf(n)`, with `none` for `-1`. -/
def indexOfSub (n : Str) : Str → Option Nat
  | [] => if startsWithL n [] then some 0 else none
  | c :: t =>
    if startsWithL n (c :: t) then some 0
    else (indexOfSub n t).map (· + 1)

/-- JavaScript `s.trim()`: strip `jsSpace` characters from both ends. -/
def trimList (s : Str) : Str :=
  ((s.dropWhile jsSpace).reverse.dropWhile jsSpace).reverse

/-- JavaScript `s.split("\n")`: the lines of `s` (a trailing newline yields a
final empty part, exactly as in JS). -/
def splitNl : Str → List Str
  | [] => [[]]
  | c :: t =>
    if c = '\n' then [] :: splitNl t
    else
      match splitNl t with
      | [] => [[c]]
      | l :: ls => (c :: l) :: ls

/-- The heading lines of a changelog document: the lines beginning with
`###` (entry headings; the document header line begins with `## ` and is
never included). -/
def headingLines (s : Str) : List Str :=
  (splitNl s).filter (startsWithL (lit "###"))

/-- JavaScript `message.split("\n")[0]`: the first line of a string. -/
def firstLineStr (s : Str) : Str := s.takeWhile (· != '\n')

/-! ### The date-range regular expression

`sumarize-changelog.js` line 122 matches the new entry against
`/###\s+(\d{2}\.\d{2}\.\d{4}\s*-\s*\d{2}\.\d{2}\.\d{4})/` and uses capture
group 1.  Because `\s`, `\d` and the literals `-`, `.` are pairwise
disjoint character classes, the greedy quantifiers never backtrack, so the
match is equivalent to the deterministic maximal-munch parse below. -/

/-- Read exactly `n` ASCII digits, returning them and the rest. -/
def takeDigits : Nat → Str → Option (Str × Str)
  | 0, s => some ([], s)
  | _ + 1, [] => none
  | n + 1, c :: t =>
    if isDig c then (takeDigits n t).map (fun p => (c :: p.1, p.2)) else none

/-- Parse `\d{2}\.\d{2}\.\d{4}` (one `DD.MM.YYYY` date), returning the
matched text and the rest. -/
def parseDateR (s : Str) : Option (Str × Str) :=
  match takeDigits 2 s with
  | some (d1, '.' :: r1) =>
    match takeDigits 2 r1 with
    | some (d2, '.' :: r2) =>
      match takeDigits 4 r2 with
      | some (d3, r3) => some (d1 ++ '.' :: d2 ++ '.' :: d3, r3)
      | none => none
    | _ => none
  | _ => none

/-- Match `###\s+(\d{2}\.\d{2}\.\d{4}\s*-\s*\d{2}\.\d{2}\.\d{4})` at the
start of `s`, returning capture group 1 and the rest after the match. -/
def matchDrAt (s : Str) : Option (Str × Str) :=
  match s with
  | '#' :: '#' :: '#' :: r =>
    if (r.takeWhile jsSpace).isEmpty then none
    else
      match parseDateR (r.dropWhile jsSpace) with
      | some (a, r2) =>
        match r2.dropWhile jsSpace with
        | '-' :: r4 =>
          match parseDateR (r4.dropWhile jsSpace) with
          | some (b, r6) =>
            some (a ++ r2.takeWhile jsSpace ++ '-' :: r4.takeWhile jsSpace ++ b, r6)
          | none => none
        | _ => none
      | none => none
  | _ => none

/-- `newEntry.match(/###\s+(DD.MM.YYYY\s*-\s*DD.MM.YYYY)/)`: the capture
group of the leftmost match, if any. -/
def findDateRange : Str → Option Str
  | [] => none
  | c :: t =>
    match matchDrAt (c :: t) with
    | some (g, _) => some g
    | none => findDateRange t

/-! ### The merger (`updateChangelogFile`, lines 118-146) -/

/-- Result of `updateChangelogFile`: the `{content, hasChanges}` object. -/
structure MergeResult where
  content : Str
  hasChanges : Bool
deriving DecidableEq

/-- The document header: `` `## ${repoName} - Changelog\n\n` `` (line 119). -/
def headerOf (repoName : Str) : Str :=
  lit "## " ++ repoName ++ lit " - Changelog\n\n"

/-- The header line without its trailing blank line. -/
def headerTrimmed (repoName : Str) : Str :=
  lit "## " ++ repoName ++ lit " - Changelog"

/-- Lines 122-123: the new entry has a date-range match whose capture
already occurs in the existing content. -/
def dedupHit (newEntry existingContent : Str) : Bool :=
  match findDateRange newEntry with
  | some dr => containsSub dr existingContent
  | none => false

/-- `updateChangelogFile(newEntry, repoName, existingContent)`
(`sumarize-changelog.js` lines 118-146), translated clause by clause. -/
def updateChangelogFile (newEntry repoName existingContent : Str) : MergeResult :=
  let header := headerOf repoName
  if dedupHit newEntry existingContent then
    { content := existingContent, hasChanges := false }
  else if (trimList existingContent).isEmpty
      || !containsSub (trimList header) existingContent then
    { content := header ++ newEntry, hasChanges := true }
  else
    match indexOfSub header existingContent with
    | some i =>
      { content := header ++ newEntry ++ lit "\n\n"
          ++ existingContent.drop (i + header.length),
        hasChanges := true }
    | none =>
      { content := header ++ newEntry ++ lit "\n\n" ++ existingContent,
        hasChanges := true }

/-! ### Newline normalization (`formatChangelogEntry`, lines 95-109) -/

/-- Count the leading newlines of `s` and return the remainder
(the remainder is `[]` or starts with a non-newline character). -/
def countNl : Str → Nat × Str
  | [] => (0, [])
  | c :: t => if c = '\n' then ((countNl t).1 + 1, (countNl t).2) else (0, c :: t)

/-- JavaScript `entry.replace(/\n{3,}/g, "\n\n")`: every maximal run of
three or more newlines is replaced by exactly two.  (The regex is greedy,
so each match consumes a whole maximal run; runs of one or two newlines
match nowhere and are copied unchanged.) -/
def collapseNewlines : Str → Str
  | [] => []
  | c :: t =>
    if c = '\n' then
      if 3 ≤ (countNl t).1 + 1 then
        '\n' :: '\n' :: collapseNewlines (countNl t).2
      else
        List.replicate ((countNl t).1 + 1) '\n' ++ collapseNewlines (countNl t).2
    else c :: collapseNewlines t
termination_by s => s.length
decreasing_by
  · refine Nat.lt_succ_of_le ?_
    clear * - t
    induction t with
    | nil => simp [countNl]
    | cons c t ih =>
      by_cases h : c = '\n'
      · simp only [countNl, if_pos h]
        exact Nat.le_succ_of_le ih
      · simp [countNl, if_neg h]
  · refine Nat.lt_succ_of_le ?_
    clear * - t
    induction t with
    | nil => simp [countNl]
    | cons c t ih =>
      by_cases h : c = '\n'
      · simp only [countNl, if_pos h]
        exact Nat.le_succ_of_le ih
      · simp [countNl, if_neg h]
  · exact Nat.lt_succ_of_le (Nat.le_refl t.length)

/-- `formatChangelogEntry(aiResponse, repoName)` (lines 95-109): trim,
prepend `### ` when the entry does not start with `###`, collapse runs of
3+ newlines.  (`repoName` is accepted and unused, as in the source.) -/
def formatChangelogEntry (aiResponse repoName : Str) : Str :=
  let entry := trimList aiResponse
  let entry := if startsWithL (lit "###") entry then entry else lit "### " ++ entry
  collapseNewlines entry

/-! ### Commits and the projection `getCommitsForChangelog` (lines 148-160)

Raw commits are the objects of the GitHub `listCommits` response; only the
fields the code reads are modelled.  The author and committer `date`
fields are `Option Str` (a GitHub payload may omit them), matching the
code's guard `commit.commit.author.date || commit.commit.committer.date`. -/

/-- The `author` / `committer` sub-objects of a raw GitHub commit. -/
structure RawPerson where
  date : Option Str
  name : Str
deriving DecidableEq

/-- The nested `commit` object of a raw GitHub commit. -/
structure RawCommitInner where
  message : Str
  author : RawPerson
  committer : RawPerson
deriving DecidableEq

/-- One element of the GitHub `listCommits` response. -/
structure RawCommit where
  sha : Str
  commit : RawCommitInner
deriving DecidableEq

/-- The projected commit shape `{sha, message, date, author}`. -/
structure Commit where
  sha : Str
  message : Str
  date : Option Str
  author : Str
deriving DecidableEq

/-- JavaScript `a || b` on string-valued fields: `b` when `a` is absent
(`undefined`) or the empty string (both are falsy), else `a`. -/
def jsOrStr (a b : Option Str) : Option Str :=
  match a with
  | some s => if s.isEmpty then b else some s
  | none => b

/-- `getCommitsForChangelog(commits)` (lines 153-160): per-element
projection of the raw response, preserving order. -/
def getCommitsForChangelog (commits : List RawCommit) : List Commit :=
  commits.map fun c =>
    { sha := c.sha
      message := firstLineStr c.commit.message
      date := jsOrStr c.commit.author.date c.commit.committer.date
      author := c.commit.author.name }

/-! ### Dates and the summarizer (`generateChangelogWithAI`, lines 10-87)

`new Date(str).toLocaleDateString("pl-PL", {day:"2-digit", month:"2-digit",
year:"numeric"})` is modelled for ISO `YYYY-MM-DD`-prefixed date strings,
the only shape GitHub delivers; it renders `DD.MM.YYYY`.  Any other input
is an invalid date and renders `Invalid Date`. -/

/-- A calendar date. -/
structure SimpleDate where
  year : Nat
  month : Nat
  day : Nat
deriving DecidableEq

/-- Numeric value of a digit string. -/
def digitsToNat (s : Str) : Nat :=
  s.foldl (fun a c => a * 10 + (c.toNat - '0'.toNat)) 0

/-- Parse the `YYYY-MM-DD` prefix of an ISO date string
(`new Date(str)` accepts a time part after it). -/
def parseIsoDate (s : Str) : Option SimpleDate :=
  match takeDigits 4 s with
  | some (y, '-' :: r1) =>
    match takeDigits 2 r1 with
    | some (m, '-' :: r2) =>
      match takeDigits 2 r2 with
      | some (d, rest) =>
        let yn := digitsToNat y
        let mn := digitsToNat m
        let dn := digitsToNat d
        if (rest.isEmpty || rest.headD ' ' = 'T')
            && 1 ≤ mn && mn ≤ 12 && 1 ≤ dn && dn ≤ 31 then
          some { year := yn, month := mn, day := dn }
        else none
      | none => none
    | _ => none
  | _ => none

/-- Left-pad a number to two digits (`2-digit` formatting). -/
def pad2 (n : Nat) : Str :=
  if n < 10 then '0' :: Nat.toDigits 10 n else Nat.toDigits 10 n

/-- `pl-PL` day-month-year formatting: `DD.MM.YYYY`. -/
def fmtPl (d : SimpleDate) : Str :=
  pad2 d.day ++ '.' :: pad2 d.month ++ '.' :: Nat.toDigits 10 d.year

/-- `new Date(s).toLocaleDateString("pl-PL", ...)` for an optional date
string (an absent field gives an invalid date). -/
def fmtJsDate (s : Option Str) : Str :=
  match s with
  | none => lit "Invalid Date"
  | some str =>
    match parseIsoDate str with
    | some d => fmtPl d
    | none => lit "Invalid Date"

/-- Lines 33-44: the date range
`` `${fmt(commits[commits.length-1].date)} - ${fmt(commits[0].date)}` ``
(oldest commit is the last array element, newest the first). -/
def dateRangeOf (commits : List Commit) : Str :=
  fmtJsDate (match commits.getLast? with | some c => c.date | none => none)
    ++ lit " - "
    ++ fmtJsDate (match commits.head? with | some c => c.date | none => none)

/-- Lines 22-31: one line per commit,
`` `- ${date}: ${message} (${sha.substring(0,7)})` ``, joined by newlines. -/
def commitsTextOf (commits : List Commit) : Str :=
  List.intercalate (lit "\n")
    (commits.map fun c =>
      lit "- " ++ fmtJsDate c.date ++ lit ": " ++ c.message
        ++ lit " (" ++ c.sha.take 7 ++ lit ")")

/-- The prompt template of lines 49-79 with `commitsText` and the date
range spliced in (surrounding indentation collapsed; no claim inspects the
literal prose). -/
def promptFor (commits : List Commit) : Str :=
  lit "You are a technical writer creating a changelog entry for a software project.\nAnalyze the following commits and create a concise, professional changelog entry in Polish.\n\nCommits to analyze:\n"
    ++ commitsTextOf commits
    ++ lit "\n\nRequirements:\n1. Create a changelog entry in the following format:\n### "
    ++ dateRangeOf commits
    ++ lit "\n\n- Brief description of change 1\n- Brief description of change 2\n- Brief description of change 3\n\n2. Group similar changes together\n3. Use clear, concise language in Polish\n4. Focus on user-visible changes and important technical improvements\n5. Ignore trivial changes like typo fixes unless they are significant\n6. Use bullet points starting with \x22- \x22\n7. Each bullet point should be on a new line\n8. Return ONLY the changelog entry (### date range and bullet points), nothing else\n9. Do not include the repository name or any other headers\n\nExample format:\n### 07.04.2025 - 14.04.2025\n\n- Wdrozono poprawki do styli na stronie glownej\n- Zaktualizowano zaleznosci w package.json\n- Wykonano modernizacje kodu client-side (jQuery -> Svelte)"

/-- `generateChangelogWithAI(commits, apiKey, repoName)` (lines 10-87).
The Gemini call `ai.models.generateContent` is the explicit parameter
`svc` (prompt to response text, or a thrown error).  The second component
of the result counts how many times the service was invoked, making the
"no call before validation / no retry" behaviour visible.  A thrown
`Error` is `Except.error` carrying its message. -/
def generateChangelogWithAI (commits : List Commit) (apiKey : Str)
    (svc : Str → Except Str Str) : Except Str Str × Nat :=
  if commits.isEmpty then
    (Except.error (lit "No commits provided for changelog generation"), 0)
  else if apiKey.isEmpty then
    (Except.error (lit "Google API key is required"), 0)
  else
    match svc (promptFor commits) with
    | Except.ok t => (Except.ok (trimList t), 1)
    | Except.error e => (Except.error e, 1)

/-! ### GitHub helpers (`github-utils.js`) -/

/-- A git ref object as returned by `octokit.rest.git.getRef`
(only the commit SHA is read). -/
structure RefObj where
  sha : Str
deriving DecidableEq

/-- An error thrown by an Octokit call (`error.status`, `error.message`). -/
structure ApiError where
  status : Nat
  msg : Str
deriving DecidableEq

/-- The hosting API surface used by `createBranch`: read a ref, create a
ref at a SHA. -/
structure GitApi where
  getRef : Str → Except ApiError RefObj
  createRef : Str → Str → Except ApiError Unit

/-- `createBranch({branchName, baseBranch})` (`github-utils.js` lines
216-259): read the base branch tip, create the new ref, and on any error
whose `status` is `422` fall back to reading the existing branch's tip;
all other errors propagate. -/
def createBranch (api : GitApi) (branchName baseBranch : Str) : Except ApiError Str :=
  let attempt : Except ApiError Str :=
    match api.getRef (lit "heads/" ++ baseBranch) with
    | Except.error e => Except.error e
    | Except.ok baseRef =>
      match api.createRef (lit "refs/heads/" ++ branchName) baseRef.sha with
      | Except.error e => Except.error e
      | Except.ok _ => Except.ok baseRef.sha
  match attempt with
  | Except.ok s => Except.ok s
  | Except.error e =>
    if e.status = 422 then
      match api.getRef (lit "heads/" ++ branchName) with
      | Except.ok existingRef => Except.ok existingRef.sha
      | Except.error e2 => Except.error e2
    else Except.error e

/-! ### The orchestrating `run` function (`index.js`)

Each external collaborator is a field of `RunEnv`; `run` returns the
ordered list of stage calls it performed together with the final outcome,
mirroring the straight-line `try`/`catch` of the source.  `getRecentCommits`,
`getFileContent`, `updateOrCreateFile` and `createPR` are single API
round-trips and appear as their `Except`-valued results; the branch name
date suffix is the environment's `todayCompact`. -/

/-- The observable stage calls of one run, in order. -/
inductive RunEvent where
  | fetchCommits
  | genAI
  | getFile
  | merge
  | mkBranch
  | writeFile
  | openPR
deriving DecidableEq

/-- The created pull request (fields read by `run`). -/
structure PrObj where
  number : Nat
  html_url : Str
deriving DecidableEq

/-- Final outcome of a run: success (with the PR outputs when a PR was
created) or `core.setFailed` with an error message. -/
inductive RunOutcome where
  | success (outputs : Option (Nat × Str))
  | failed (msg : Str)
deriving DecidableEq

/-- The environment of one run: configuration plus the behaviour of every
external collaborator. -/
structure RunEnv where
  githubToken : Str
  googleApiKey : Str
  repoName : Str
  targetBranch : Str
  todayCompact : Str
  fetchResult : Except ApiError (List RawCommit)
  svc : Str → Except Str Str
  getFileResult : Except ApiError (Option Str)
  api : GitApi
  writeFileResult : Except ApiError Unit
  openPRResult : Except ApiError PrObj

/-- `run()` (`index.js` lines 20-146): the four-stage pipeline with its
two early exits and the catch-all error handler. -/
def run (env : RunEnv) : List RunEvent × RunOutcome :=
  if env.githubToken.isEmpty then
    ([], RunOutcome.failed (lit "GITHUB_TOKEN is required"))
  else if env.googleApiKey.isEmpty then
    ([], RunOutcome.failed (lit "GOOGLE_API_KEY is required"))
  else
    match env.fetchResult with
    | Except.error e => ([RunEvent.fetchCommits], RunOutcome.failed e.msg)
    | Except.ok rawCommits =>
      if rawCommits.isEmpty then
        ([RunEvent.fetchCommits], RunOutcome.success none)
      else
        let formatted := getCommitsForChangelog rawCommits
        match (generateChangelogWithAI formatted env.googleApiKey env.svc).1 with
        | Except.error e =>
          ([RunEvent.fetchCommits, RunEvent.genAI], RunOutcome.failed e)
        | Except.ok aiText =>
          let entry := formatChangelogEntry aiText env.repoName
          match env.getFileResult with
          | Except.error e =>
            ([RunEvent.fetchCommits, RunEvent.genAI, RunEvent.getFile],
             RunOutcome.failed e.msg)
          | Except.ok fileOpt =>
            let existing := fileOpt.getD []
            let m := updateChangelogFile entry env.repoName existing
            if !m.hasChanges then
              ([RunEvent.fetchCommits, RunEvent.genAI, RunEvent.getFile,
                RunEvent.merge],
               RunOutcome.success none)
            else
              let branchName := lit "changelog/update-" ++ env.todayCompact
              match createBranch env.api branchName env.targetBranch with
              | Except.error e =>
                ([RunEvent.fetchCommits, RunEvent.genAI, RunEvent.getFile,
                  RunEvent.merge, RunEvent.mkBranch],
                 RunOutcome.failed e.msg)
              | Except.ok _ =>
                match env.writeFileResult with
                | Except.error e =>
                  ([RunEvent.fetchCommits, RunEvent.genAI, RunEvent.getFile,
                    RunEvent.merge, RunEvent.mkBranch, RunEvent.writeFile],
                   RunOutcome.failed e.msg)
                | Except.ok _ =>
                  match env.openPRResult with
                  | Except.error e =>
                    ([RunEvent.fetchCommits, RunEvent.genAI, RunEvent.getFile,
                      RunEvent.merge, RunEvent.mkBranch, RunEvent.writeFile,
                      RunEvent.openPR],
                     RunOutcome.failed e.msg)
                  | Except.ok pr =>
                    ([RunEvent.fetchCommits, RunEvent.genAI, RunEvent.getFile,
                      RunEvent.merge, RunEvent.mkBranch, RunEvent.writeFile,
                      RunEvent.openPR],
                     RunOutcome.success (some (pr.number, pr.html_url)))

/-! ### Concrete objects used by counterexamples and witnesses -/

/-- From the spec's words: the projection `authorDate ?? committerDate`
(the author date whenever it is present, otherwise the committer date). -/
def specAuthorDateFallback (a b : Option Str) : Option Str :=
  match a with
  | some s => some s
  | none => b

/-- A hosting API whose ref creation fails with HTTP status 409. -/
def api409 : GitApi :=
  { getRef := fun r =>
      if r = lit "heads/main" then Except.ok { sha := lit "basesha" }
      else if r = lit "heads/changelog" then Except.ok { sha := lit "tipsha" }
      else Except.error { status := 404, msg := lit "not found" }
    createRef := fun _ _ => Except.error { status := 409, msg := lit "conflict" } }

/-- A hosting API whose ref creation reports 422 (already exists). -/
def api422 : GitApi :=
  { getRef := fun r =>
      if r = lit "heads/main" then Except.ok { sha := lit "basesha" }
      else if r = lit "heads/changelog" then Except.ok { sha := lit "tipsha" }
      else Except.error { status := 404, msg := lit "not found" }
    createRef := fun _ _ => Except.error { status := 422, msg := lit "exists" } }

/-- A concrete run environment whose fetch yields zero commits. -/
def envZero : RunEnv :=
  { githubToken := lit "t"
    googleApiKey := lit "k"
    repoName := lit "demo"
    targetBranch := lit "main"
    todayCompact := lit "20240101"
    fetchResult := Except.ok []
    svc := fun _ => Except.ok []
    getFileResult := Except.ok none
    api :=
      { getRef := fun _ => Except.error { status := 404, msg := lit "nf" }
        createRef := fun _ _ => Except.ok () }
    writeFileResult := Except.ok ()
    openPRResult := Except.ok { number := 1, html_url := lit "u" } }

/-! ### Substring lemmas -/

theorem startsWithL_self_append (n t : Str) : startsWithL n (n ++ t) = true := by
  induction n with
  | nil => rfl
  | cons a as ih => simp [startsWithL, ih]

theorem startsWithL_ex {n s : Str} (h : startsWithL n s = true) :
    ∃ t, s = n ++ t := by
  induction n generalizing s with
  | nil => exact ⟨s, rfl⟩
  | cons a as ih =>
    cases s with
    | nil => simp [startsWithL] at h
    | cons b bs =>
      simp only [startsWithL, Bool.and_eq_true, beq_iff_eq] at h
      obtain ⟨t, ht⟩ := ih h.2
      exact ⟨t, by simp [h.1, ht]⟩

theorem containsSub_ex {n h : Str} (hc : containsSub n h = true) :
    ∃ p q, h = p ++ n ++ q := by
  induction h with
  | nil =>
    obtain ⟨t, ht⟩ := startsWithL_ex hc
    exact ⟨[], t, ht⟩
  | cons c t ih =>
    simp only [containsSub, Bool.or_eq_true] at hc
    rcases hc with hc | hc
    · obtain ⟨u, hu⟩ := startsWithL_ex hc
      exact ⟨[], u, hu⟩
    · obtain ⟨p, q, hpq⟩ := ih hc
      exact ⟨c :: p, q, by simp [hpq]⟩

theorem containsSub_intro (n p q : Str) : containsSub n (p ++ n ++ q) = true := by
  induction p with
  | nil =>
    cases hnq : n ++ q with
    | nil => simp only [List.nil_append, hnq, containsSub]
             cases n with
             | nil => rfl
             | cons a as => simp at hnq
    | cons c t =>
      simp only [List.nil_append, hnq, containsSub, Bool.or_eq_true]
      exact Or.inl (hnq ▸ startsWithL_self_append n q)
  | cons c p ih =>
    have hre : (c :: p) ++ n ++ q = c :: (p ++ n ++ q) := by simp
    rw [hre]
    simp only [containsSub, Bool.or_eq_true]
    exact Or.inr ih

theorem containsSub_of_left {n m h : Str} (hc : containsSub (n ++ m) h = true) :
    containsSub n h = true := by
  obtain ⟨p, q, hpq⟩ := containsSub_ex hc
  subst hpq
  have : p ++ (n ++ m) ++ q = p ++ n ++ (m ++ q) := by simp
  rw [this]
  exact containsSub_intro n p (m ++ q)

theorem indexOfSub_decomp {n h : Str} {i : Nat} (hidx : indexOfSub n h = some i) :
    h = h.take i ++ n ++ h.drop (i + n.length) := by
  induction h generalizing i with
  | nil =>
    simp only [indexOfSub] at hidx
    split at hidx
    · next hs =>
      obtain ⟨t, ht⟩ := startsWithL_ex hs
      cases hidx
      cases n with
      | nil => rfl
      | cons a as => simp at ht
    · cases hidx
  | cons c t ih =>
    simp only [indexOfSub] at hidx
    split at hidx
    · next hs =>
      cases hidx
      obtain ⟨u, hu⟩ := startsWithL_ex hs
      rw [hu]
      simp [List.drop_left]
    · next hs =>
      rw [Option.map_eq_some'] at hidx
      obtain ⟨j, hj, hij⟩ := hidx
      subst hij
      have hdec := ih hj
      have h2 : (c :: t).take (j + 1) = c :: t.take j := by simp
      have h3 : (c :: t).drop (j + 1 + n.length) = t.drop (j + n.length) := by
        rw [Nat.add_right_comm]
        rfl
      rw [h2, h3]
      calc c :: t = c :: (t.take j ++ n ++ t.drop (j + n.length)) := by rw [← hdec]
        _ = (c :: t.take j) ++ n ++ t.drop (j + n.length) := by simp

/-! ### Trim lemmas -/

theorem dropWhile_jsSpace_all {s : Str} (h : s.dropWhile jsSpace = []) :
    ∀ c ∈ s, jsSpace c = true := by
  induction s with
  | nil => intro c hc; cases hc
  | cons a t ih =>
    intro c hc
    by_cases ha : jsSpace a
    · rw [List.dropWhile_cons_of_pos ha] at h
      rcases List.mem_cons.mp hc with rfl | hc2
      · exact ha
      · exact ih h c hc2
    · rw [List.dropWhile_cons_of_neg ha] at h
      cases h

theorem trimList_nil_all {s : Str} (h : trimList s = []) :
    ∀ c ∈ s, jsSpace c = true := by
  unfold trimList at h
  rw [List.reverse_eq_nil_iff] at h
  have h2 : ∀ c ∈ (s.dropWhile jsSpace).reverse, jsSpace c = true :=
    dropWhile_jsSpace_all h
  intro c hc
  by_cases hmem : c ∈ s.dropWhile jsSpace
  · exact h2 c (by simpa using hmem)
  · -- c is in the dropped prefix
    have hsplit : s = s.takeWhile jsSpace ++ s.dropWhile jsSpace :=
      (List.takeWhile_append_dropWhile jsSpace s).symm
    rw [hsplit] at hc
    rcases List.mem_append.mp hc with hc | hc
    · exact List.mem_takeWhile_imp hc
    · exact absurd hc hmem

/-! ### Line-splitting lemmas -/

theorem splitNl_cons_nl (t : Str) : splitNl ('\n' :: t) = [] :: splitNl t := by
  simp [splitNl]

theorem splitNl_cons_other {c : Char} (hc : ¬c = '\n') (t l : Str) (ls : List Str)
    (hsp : splitNl t = l :: ls) : splitNl (c :: t) = (c :: l) :: ls := by
  simp only [splitNl, if_neg hc, hsp]

theorem splitNl_ne_nil (s : Str) : splitNl s ≠ [] := by
  cases s with
  | nil => simp [splitNl]
  | cons c t =>
    simp only [splitNl]
    split
    · simp
    · split <;> simp

theorem splitNl_append (x y : Str) :
    splitNl (x ++ '\n' :: y) = splitNl x ++ splitNl y := by
  induction x with
  | nil => simp [splitNl]
  | cons c t ih =>
    by_cases hc : c = '\n'
    · subst hc
      simp [splitNl_cons_nl, ih]
    · cases hsp : splitNl t with
      | nil => exact absurd hsp (splitNl_ne_nil t)
      | cons l ls =>
        have hl : splitNl (t ++ '\n' :: y) = l :: (ls ++ splitNl y) := by
          rw [ih, hsp]
          simp
        rw [List.cons_append, splitNl_cons_other hc _ _ _ hl,
          splitNl_cons_other hc _ _ _ hsp]
        simp

theorem splitNl_no_nl {s : Str} (h : ∀ c ∈ s, c ≠ '\n') : splitNl s = [s] := by
  induction s with
  | nil => rfl
  | cons c t ih =>
    have hc : c ≠ '\n' := h c (by simp)
    simp only [splitNl, if_neg hc]
    rw [ih (fun d hd => h d (by simp [hd]))]

theorem splitNl_head_ex {s l : Str} {ls : List Str} (h : splitNl s = l :: ls) :
    ∃ q, s = l ++ q := by
  induction s generalizing l ls with
  | nil =>
    simp only [splitNl, List.cons.injEq] at h
    exact ⟨[], by simp [← h.1]⟩
  | cons c t ih =>
    by_cases hc : c = '\n'
    · subst hc
      rw [splitNl_cons_nl] at h
      simp only [List.cons.injEq] at h
      exact ⟨'\n' :: t, by simp [← h.1]⟩
    · cases hsp : splitNl t with
      | nil => exact absurd hsp (splitNl_ne_nil t)
      | cons l0 ls0 =>
        rw [splitNl_cons_other hc _ _ _ hsp] at h
        simp only [List.cons.injEq] at h
        obtain ⟨q, hq⟩ := ih hsp
        exact ⟨q, by simp [← h.1, hq]⟩

theorem mem_splitNl_ex {s l : Str} (h : l ∈ splitNl s) : ∃ p q, s = p ++ l ++ q := by
  induction s generalizing l with
  | nil =>
    simp only [splitNl, List.mem_singleton] at h
    exact ⟨[], [], by simp [h]⟩
  | cons c t ih =>
    by_cases hc : c = '\n'
    · subst hc
      rw [splitNl_cons_nl] at h
      rcases List.mem_cons.mp h with h | h
      · exact ⟨[], '\n' :: t, by simp [h]⟩
      · obtain ⟨p, q, hpq⟩ := ih h
        exact ⟨'\n' :: p, q, by simp [hpq]⟩
    · cases hsp : splitNl t with
      | nil => exact absurd hsp (splitNl_ne_nil t)
      | cons l0 ls0 =>
        rw [splitNl_cons_other hc _ _ _ hsp] at h
        rcases List.mem_cons.mp h with h | h
        · subst h
          obtain ⟨q, hq⟩ := splitNl_head_ex hsp
          exact ⟨[], q, by simp [hq]⟩
        · obtain ⟨p, q, hpq⟩ := ih (hsp ▸ List.mem_cons_of_mem l0 h)
          exact ⟨c :: p, q, by simp [hpq]⟩

/-! ### Newline-collapse lemmas (claim C10) -/

theorem countNl_len : ∀ s : Str, (countNl s).2.length ≤ s.length := by
  intro s
  induction s with
  | nil => simp [countNl]
  | cons c t ih =>
    by_cases h : c = '\n'
    · simp only [countNl, if_pos h]
      exact Nat.le_succ_of_le ih
    · simp [countNl, if_neg h]

/-- `s` contains three consecutive newlines (i.e. the regex `\n{3,}` still
matches somewhere in `s`). -/
def hasTripleNl : Str → Bool
  | a :: b :: c :: t => (a == '\n' && b == '\n' && c == '\n') || hasTripleNl (b :: c :: t)
  | _ => false

theorem hasTripleNl_tail {c : Char} {t : Str} (h : hasTripleNl (c :: t) = false) :
    hasTripleNl t = false := by
  match t with
  | [] => rfl
  | [b] => rfl
  | b :: d :: t2 =>
    simp only [hasTripleNl, Bool.or_eq_false_iff] at h
    exact h.2

theorem hasTripleNl_suffix {y : Str} : ∀ {x : Str},
    hasTripleNl (x ++ y) = false → hasTripleNl y = false := by
  intro x
  induction x with
  | nil => exact id
  | cons c x2 ih =>
    intro h
    exact ih (hasTripleNl_tail h)

theorem countNl_decomp : ∀ s : Str,
    s = List.replicate (countNl s).1 '\n' ++ (countNl s).2 := by
  intro s
  induction s with
  | nil => rfl
  | cons c t ih =>
    by_cases h : c = '\n'
    · subst h
      have he : countNl ('\n' :: t) = ((countNl t).1 + 1, (countNl t).2) := by
        simp [countNl]
      rw [he, List.replicate_succ, List.cons_append]
      exact congrArg ('\n' :: ·) ih
    · simp [countNl, if_neg h]

theorem countNl_head : ∀ s : Str, (countNl s).2.head? ≠ some '\n' := by
  intro s
  induction s with
  | nil => simp [countNl]
  | cons c t ih =>
    by_cases h : c = '\n'
    · subst h
      simpa [countNl] using ih
    · simp [countNl, h]

theorem collapseNewlines_nil : collapseNewlines [] = [] := by
  simp [collapseNewlines]

theorem collapseNewlines_cons_other {c : Char} (hc : ¬c = '\n') (t : Str) :
    collapseNewlines (c :: t) = c :: collapseNewlines t := by
  simp [collapseNewlines, hc]

theorem collapseNewlines_cons_nl_big (t : Str) (h : 3 ≤ (countNl t).1 + 1) :
    collapseNewlines ('\n' :: t)
      = '\n' :: '\n' :: collapseNewlines (countNl t).2 := by
  simp [collapseNewlines, h]

theorem collapseNewlines_cons_nl_small (t : Str) (h : ¬3 ≤ (countNl t).1 + 1) :
    collapseNewlines ('\n' :: t)
      = List.replicate ((countNl t).1 + 1) '\n' ++ collapseNewlines (countNl t).2 := by
  simp [collapseNewlines, h]

theorem collapse_head {r : Str} (h : r.head? ≠ some '\n') :
    (collapseNewlines r).head? ≠ some '\n' := by
  cases r with
  | nil => simp [collapseNewlines]
  | cons c t =>
    have hc : ¬c = '\n' := by simpa using h
    rw [collapseNewlines_cons_other hc]
    simpa using hc

theorem hasTripleNl_cons_not_nl {c : Char} (hc : ¬c = '\n') {Y : Str}
    (hY : hasTripleNl Y = false) : hasTripleNl (c :: Y) = false := by
  cases Y with
  | nil => rfl
  | cons y t2 =>
    cases t2 with
    | nil => rfl
    | cons z t3 =>
      simp only [hasTripleNl, Bool.or_eq_false_iff]
      exact ⟨by simp [hc], hY⟩

theorem hasTripleNl_cons_of (c : Char) {Y : Str} (hY : hasTripleNl Y = false)
    (hy : Y.head? ≠ some '\n') : hasTripleNl (c :: Y) = false := by
  cases Y with
  | nil => rfl
  | cons y t2 =>
    have hyn : ¬y = '\n' := by simpa using hy
    cases t2 with
    | nil => rfl
    | cons z t3 =>
      simp only [hasTripleNl, Bool.or_eq_false_iff]
      exact ⟨by simp [hyn], hY⟩

theorem hasTripleNl_two_nl {Y : Str} (hY : hasTripleNl Y = false)
    (hy : Y.head? ≠ some '\n') : hasTripleNl ('\n' :: '\n' :: Y) = false := by
  have h1 : hasTripleNl ('\n' :: Y) = false := hasTripleNl_cons_of '\n' hY hy
  cases Y with
  | nil => rfl
  | cons y t2 =>
    have hyn : ¬y = '\n' := by simpa using hy
    simp only [hasTripleNl, Bool.or_eq_false_iff]
    exact ⟨by simp [hyn], h1⟩

theorem collapse_no3_aux : ∀ n, ∀ s : Str, s.length ≤ n →
    hasTripleNl (collapseNewlines s) = false := by
  intro n
  induction n with
  | zero =>
    intro s hs
    have hnil : s = [] := List.length_eq_zero.mp (Nat.le_zero.mp hs)
    subst hnil
    rw [collapseNewlines_nil]
    rfl
  | succ n ih =>
    intro s hs
    cases s with
    | nil =>
      rw [collapseNewlines_nil]
      rfl
    | cons c t =>
      have ht : t.length ≤ n := Nat.succ_le_succ_iff.mp (by simpa using hs)
      by_cases hc : c = '\n'
      · subst hc
        have hrl : (countNl t).2.length ≤ n := le_trans (countNl_len t) ht
        have hY := ih _ hrl
        have hyh : (collapseNewlines (countNl t).2).head? ≠ some '\n' :=
          collapse_head (countNl_head t)
        by_cases hk : 3 ≤ (countNl t).1 + 1
        · rw [collapseNewlines_cons_nl_big t hk]
          exact hasTripleNl_two_nl hY hyh
        · rw [collapseNewlines_cons_nl_small t hk]
          have hk2 : (countNl t).1 + 1 = 1 ∨ (countNl t).1 + 1 = 2 := by omega
          rcases hk2 with hk2 | hk2 <;> rw [hk2]
          · simpa using hasTripleNl_cons_of '\n' hY hyh
          · simpa using hasTripleNl_two_nl hY hyh
      · rw [collapseNewlines_cons_other hc]
        exact hasTripleNl_cons_not_nl hc (ih t ht)

theorem no3_collapse_aux : ∀ n, ∀ s : Str, s.length ≤ n →
    hasTripleNl s = false → collapseNewlines s = s := by
  intro n
  induction n with
  | zero =>
    intro s hs _
    have hnil : s = [] := List.length_eq_zero.mp (Nat.le_zero.mp hs)
    subst hnil
    exact collapseNewlines_nil
  | succ n ih =>
    intro s hs h3
    cases s with
    | nil => exact collapseNewlines_nil
    | cons c t =>
      have ht : t.length ≤ n := Nat.succ_le_succ_iff.mp (by simpa using hs)
      by_cases hc : c = '\n'
      · subst hc
        have hdec := countNl_decomp t
        have hk : ¬3 ≤ (countNl t).1 + 1 := by
          intro hk
          obtain ⟨m, hm⟩ : ∃ m, (countNl t).1 = m + 2 := ⟨(countNl t).1 - 2, by omega⟩
          rw [hm, List.replicate_succ, List.replicate_succ] at hdec
          rw [hdec] at h3
          simp [hasTripleNl] at h3
        rw [collapseNewlines_cons_nl_small t hk]
        have hrest3 : hasTripleNl (countNl t).2 = false := by
          have h3t : hasTripleNl t = false := hasTripleNl_tail h3
          rw [hdec] at h3t
          exact hasTripleNl_suffix h3t
        have hrl : (countNl t).2.length ≤ n := le_trans (countNl_len t) ht
        rw [ih _ hrl hrest3, List.replicate_succ, List.cons_append, ← hdec]
      · rw [collapseNewlines_cons_other hc]
        rw [ih t ht (hasTripleNl_tail h3)]

/-! ### Header-structure lemmas -/

theorem headerOf_eq (repoName : Str) :
    headerOf repoName = headerTrimmed repoName ++ ['\n', '\n'] := by
  unfold headerOf headerTrimmed
  have h : lit " - Changelog\n\n" = lit " - Changelog" ++ ['\n', '\n'] := by decide
  rw [h]
  simp [List.append_assoc]

theorem trim_headerOf (repoName : Str) :
    trimList (headerOf repoName) = headerTrimmed repoName := by
  unfold trimList
  have h1 : (headerOf repoName).dropWhile jsSpace = headerOf repoName := by
    show List.dropWhile jsSpace
        ('#' :: '#' :: ' ' :: (repoName ++ lit " - Changelog\n\n")) = _
    rw [List.dropWhile_cons_of_neg (by decide)]
    rfl
  rw [h1]
  have hrc : (lit " - Changelog\n\n").reverse = '\n' :: '\n' :: lit "golegnahC - " := by
    decide
  have hrh : (lit "## ").reverse = lit " ##" := by decide
  have h2 : (headerOf repoName).reverse
      = '\n' :: '\n' :: (lit "golegnahC - " ++ (repoName.reverse ++ lit " ##")) := by
    unfold headerOf
    rw [List.reverse_append, List.reverse_append, hrc, hrh]
    simp [List.append_assoc]
  rw [h2, List.dropWhile_cons_of_pos (by decide), List.dropWhile_cons_of_pos (by decide)]
  have h3 : lit "golegnahC - " ++ (repoName.reverse ++ lit " ##")
      = 'g' :: (lit "olegnahC - " ++ (repoName.reverse ++ lit " ##")) := rfl
  rw [h3, List.dropWhile_cons_of_neg (by decide), ← h3]
  rw [List.reverse_append, List.reverse_append]
  have h4 : (lit "golegnahC - ").reverse = lit " - Changelog" := by decide
  have h5 : (lit " ##").reverse = lit "## " := by decide
  rw [h4, h5, List.reverse_reverse]
  unfold headerTrimmed
  simp [List.append_assoc]

theorem headerTrimmed_not_heading (repoName : Str) :
    startsWithL (lit "###") (headerTrimmed repoName) = false := rfl

theorem headerTrimmed_no_nl {repoName : Str} (hrepo : ∀ c ∈ repoName, c ≠ '\n') :
    ∀ c ∈ headerTrimmed repoName, c ≠ '\n' := by
  intro c hc
  unfold headerTrimmed at hc
  rcases List.mem_append.mp hc with hc1 | hc2
  · rcases List.mem_append.mp hc1 with hc3 | hc4
    · intro hEq
      subst hEq
      exact absurd hc3 (by decide)
    · exact hrepo c hc4
  · intro hEq
    subst hEq
    exact absurd hc2 (by decide)

theorem headingLines_append_nl (x y : Str) :
    headingLines (x ++ '\n' :: y) = headingLines x ++ headingLines y := by
  unfold headingLines
  rw [splitNl_append, List.filter_append]

theorem headingLines_cons_nl (y : Str) : headingLines ('\n' :: y) = headingLines y := by
  unfold headingLines
  rw [splitNl_cons_nl, List.filter_cons]
  have h : startsWithL (lit "###") [] = false := by decide
  simp [h]

theorem headingLines_header_append (repoName X : Str)
    (hrepo : ∀ c ∈ repoName, c ≠ '\n') :
    headingLines (headerOf repoName ++ X) = headingLines X := by
  have hform : headerOf repoName ++ X = headerTrimmed repoName ++ '\n' :: ('\n' :: X) := by
    rw [headerOf_eq]
    simp
  rw [hform, headingLines_append_nl, headingLines_cons_nl]
  have hH0 : headingLines (headerTrimmed repoName) = [] := by
    unfold headingLines
    rw [splitNl_no_nl (headerTrimmed_no_nl hrepo), List.filter_cons]
    simp [headerTrimmed_not_heading]
  rw [hH0]
  rfl

/-! ### Claim C1 -/

/-- C1: Merger idempotence.  If the new entry matches the date-range
pattern with capture `g` and the existing document already contains `g`
as a substring, then `updateChangelogFile` returns the existing content
unchanged with `hasChanges = false`, and iterating the merge any number
of times leaves the document fixed. -/
theorem claim_c1_merge_idempotent (newEntry repoName existingContent g : Str)
    (hfd : findDateRange newEntry = some g)
    (hin : containsSub g existingContent = true) :
    updateChangelogFile newEntry repoName existingContent
      = { content := existingContent, hasChanges := false } ∧
    ∀ k : Nat,
      (fun d => (updateChangelogFile newEntry repoName d).content)^[k] existingContent
        = existingContent := by
  have hd : dedupHit newEntry existingContent = true := by
    simp [dedupHit, hfd, hin]
  have h1 : updateChangelogFile newEntry repoName existingContent
      = { content := existingContent, hasChanges := false } := by
    simp [updateChangelogFile, hd]
  refine ⟨h1, ?_⟩
  intro k
  induction k with
  | zero => rfl
  | succ k ih =>
    rw [Function.iterate_succ_apply', ih, h1]

/-- Witness for C1 at the concrete entry `### 01.01.2024 - 07.01.2024` and a
document that already contains that date range. -/
theorem claim_c1_merge_idempotent_witness :
    findDateRange (lit "### 01.01.2024 - 07.01.2024\n- did stuff")
      = some (lit "01.01.2024 - 07.01.2024") ∧
    containsSub (lit "01.01.2024 - 07.01.2024")
      (lit "## demo - Changelog\n\n### 01.01.2024 - 07.01.2024\n- old") = true ∧
    updateChangelogFile (lit "### 01.01.2024 - 07.01.2024\n- did stuff") (lit "demo")
      (lit "## demo - Changelog\n\n### 01.01.2024 - 07.01.2024\n- old")
      = { content := lit "## demo - Changelog\n\n### 01.01.2024 - 07.01.2024\n- old",
          hasChanges := false } :=
  ⟨by decide, by decide,
    (claim_c1_merge_idempotent (lit "### 01.01.2024 - 07.01.2024\n- did stuff")
      (lit "demo") (lit "## demo - Changelog\n\n### 01.01.2024 - 07.01.2024\n- old")
      (lit "01.01.2024 - 07.01.2024") (by decide) (by decide)).1⟩

/-! ### Claims C3 and C4 -/

/-- C3: Insertion ordering and preservation.  When the existing document
contains the exact header (the full `## <repoName> - Changelog` line
followed by a blank line, located at index `i`) and the new entry's
date-range substring, if it has one, is absent from the document,
`updateChangelogFile` reports a change and produces the header, the new
entry, a blank line, and everything that previously followed the header. -/
theorem claim_c3_insert_after_header (newEntry repoName existingContent : Str)
    (i : Nat)
    (hg : ∀ g, findDateRange newEntry = some g → containsSub g existingContent = false)
    (hidx : indexOfSub (headerOf repoName) existingContent = some i) :
    updateChangelogFile newEntry repoName existingContent
      = { content := headerOf repoName ++ newEntry ++ lit "\n\n"
            ++ existingContent.drop (i + (headerOf repoName).length),
          hasChanges := true } := by
  have hd : dedupHit newEntry existingContent = false := by
    unfold dedupHit
    cases hf : findDateRange newEntry with
    | none => rfl
    | some g => exact hg g hf
  have hdec := indexOfSub_decomp hidx
  have hch : containsSub (headerOf repoName) existingContent = true := by
    rw [hdec]
    exact containsSub_intro _ _ _
  have hct : containsSub (trimList (headerOf repoName)) existingContent = true := by
    rw [trim_headerOf]
    have hfull : containsSub (headerTrimmed repoName ++ ['\n', '\n']) existingContent
        = true := by
      rw [← headerOf_eq]
      exact hch
    exact containsSub_of_left hfull
  have hne : (trimList existingContent).isEmpty = false := by
    cases hte : trimList existingContent with
    | cons a b => rfl
    | nil =>
      exfalso
      have hall := trimList_nil_all hte
      have hmem : '#' ∈ existingContent := by
        rw [hdec]
        have hmh : '#' ∈ headerOf repoName := by
          show '#' ∈ '#' :: '#' :: ' ' :: (repoName ++ lit " - Changelog\n\n")
          exact List.mem_cons_self _ _
        exact List.mem_append.mpr (Or.inl (List.mem_append.mpr (Or.inr hmh)))
      have hsp := hall '#' hmem
      rw [show jsSpace '#' = false from by decide] at hsp
      cases hsp
  simp [updateChangelogFile, hd, hne, hct, hidx]

/-- Witness for C3 at the claim's concrete instance: repo `R`, document
`"## R - Changelog\n\n### A\n- x\n"` and entry `"### B\n- y"` give
`"## R - Changelog\n\n### B\n- y\n\n### A\n- x\n"`. -/
theorem claim_c3_insert_after_header_witness :
    indexOfSub (headerOf (lit "R")) (lit "## R - Changelog\n\n### A\n- x\n")
      = some 0 ∧
    updateChangelogFile (lit "### B\n- y") (lit "R")
      (lit "## R - Changelog\n\n### A\n- x\n")
      = { content := headerOf (lit "R") ++ lit "### B\n- y" ++ lit "\n\n"
            ++ (lit "## R - Changelog\n\n### A\n- x\n").drop
                (0 + (headerOf (lit "R")).length),
          hasChanges := true } ∧
    updateChangelogFile (lit "### B\n- y") (lit "R")
      (lit "## R - Changelog\n\n### A\n- x\n")
      = { content := lit "## R - Changelog\n\n### B\n- y\n\n### A\n- x\n",
          hasChanges := true } :=
  ⟨by decide,
    claim_c3_insert_after_header (lit "### B\n- y") (lit "R")
      (lit "## R - Changelog\n\n### A\n- x\n") 0
      (by
        intro g hgf
        rw [show findDateRange (lit "### B\n- y") = none from by decide] at hgf
        cases hgf)
      (by decide),
    by decide⟩

/-- C4: Empty or headerless document.  When the new entry's date-range
substring, if any, is absent from the existing content and the content is
empty (whitespace-only) or lacks the header line, the result is exactly
`header + newEntry` with `hasChanges = true`, discarding prior content. -/
theorem claim_c4_fresh_document (newEntry repoName existingContent : Str)
    (hg : ∀ g, findDateRange newEntry = some g → containsSub g existingContent = false)
    (hfresh : (trimList existingContent).isEmpty = true
      ∨ containsSub (headerTrimmed repoName) existingContent = false) :
    updateChangelogFile newEntry repoName existingContent
      = { content := headerOf repoName ++ newEntry, hasChanges := true } := by
  have hd : dedupHit newEntry existingContent = false := by
    unfold dedupHit
    cases hf : findDateRange newEntry with
    | none => rfl
    | some g => exact hg g hf
  rcases hfresh with hfresh | hfresh
  · simp [updateChangelogFile, hd, hfresh]
  · have hct : containsSub (trimList (headerOf repoName)) existingContent = false := by
      rw [trim_headerOf]
      exact hfresh
    simp [updateChangelogFile, hd, hct]

/-- Witness for C4 at the claim's concrete instance: empty document, repo
`demo`, entry `"### 01.01.2024 - 07.01.2024\n- did stuff"`. -/
theorem claim_c4_fresh_document_witness :
    (trimList (lit "")).isEmpty = true ∧
    updateChangelogFile (lit "### 01.01.2024 - 07.01.2024\n- did stuff")
      (lit "demo") (lit "")
      = { content := headerOf (lit "demo")
            ++ lit "### 01.01.2024 - 07.01.2024\n- did stuff",
          hasChanges := true } ∧
    updateChangelogFile (lit "### 01.01.2024 - 07.01.2024\n- did stuff")
      (lit "demo") (lit "")
      = { content := lit "## demo - Changelog\n\n### 01.01.2024 - 07.01.2024\n- did stuff",
          hasChanges := true } :=
  ⟨by decide,
    claim_c4_fresh_document (lit "### 01.01.2024 - 07.01.2024\n- did stuff")
      (lit "demo") (lit "")
      (by
        intro g hgf
        rw [show findDateRange (lit "### 01.01.2024 - 07.01.2024\n- did stuff")
            = some (lit "01.01.2024 - 07.01.2024") from by decide] at hgf
        cases hgf
        decide)
      (Or.inl (by decide)),
    by decide⟩

/-! ### Claim C2 -/

/-- C2 counterexample: the claimed invariant fails for entries whose
heading does not match the date pattern.  The document
`"## R - Changelog\n\n### A\n- x\n"` has pairwise-distinct entry
headings, yet merging the entry `"### A\n- y"` (same heading, no
date-range match, so the deduplication check is skipped) produces a
document with two identical `### A` headings. -/
theorem claim_c2_counterexample :
    (headingLines (lit "## R - Changelog\n\n### A\n- x\n")).Nodup ∧
    ¬ (headingLines (updateChangelogFile (lit "### A\n- y") (lit "R")
        (lit "## R - Changelog\n\n### A\n- x\n")).content).Nodup := by
  constructor
  · decide
  · decide

/-- C2 (amended): the Merger preserves uniqueness of entry headings
provided the new entry is a well-formed date-range entry: its date-range
match `g` lies inside its unique heading line `h`.  (Entries without a
date-range match can be duplicated, see the counterexample.) -/
theorem claim_c2_unique_headings (newEntry repoName existingContent g h : Str)
    (hrepo : ∀ c ∈ repoName, c ≠ '\n')
    (hfd : findDateRange newEntry = some g)
    (hh : headingLines newEntry = [h])
    (hgh : containsSub g h = true)
    (hnd : (headingLines existingContent).Nodup) :
    (headingLines
      (updateChangelogFile newEntry repoName existingContent).content).Nodup := by
  cases hdup : containsSub g existingContent with
  | true =>
    have hd : dedupHit newEntry existingContent = true := by
      simp [dedupHit, hfd, hdup]
    have hres : updateChangelogFile newEntry repoName existingContent
        = { content := existingContent, hasChanges := false } := by
      simp [updateChangelogFile, hd]
    rw [hres]
    exact hnd
  | false =>
    have hd : dedupHit newEntry existingContent = false := by
      simp [dedupHit, hfd, hdup]
    have hnotmem : ∀ X : Str, (∃ P Q, existingContent = P ++ X ++ Q) →
        h ∉ headingLines X := by
      intro X hex hmem
      obtain ⟨P, Q, hPQ⟩ := hex
      have hmem2 : h ∈ splitNl X := by
        unfold headingLines at hmem
        exact List.mem_of_mem_filter hmem
      obtain ⟨p, q, hpq⟩ := mem_splitNl_ex hmem2
      obtain ⟨a, b, hab⟩ := containsSub_ex hgh
      have hcon : containsSub g existingContent = true := by
        rw [hPQ, hpq, hab]
        have hre : P ++ (p ++ (a ++ g ++ b) ++ q) ++ Q
            = (P ++ p ++ a) ++ g ++ (b ++ (q ++ Q)) := by simp
        rw [hre]
        exact containsSub_intro _ _ _
      rw [hdup] at hcon
      cases hcon
    have hnl2 : lit "\n\n" = ['\n', '\n'] := by decide
    by_cases hbr : ((trimList existingContent).isEmpty
        || !containsSub (trimList (headerOf repoName)) existingContent) = true
    · have hres : updateChangelogFile newEntry repoName existingContent
          = { content := headerOf repoName ++ newEntry, hasChanges := true } := by
        simp [updateChangelogFile, hd, hbr]
      rw [hres]
      show (headingLines (headerOf repoName ++ newEntry)).Nodup
      rw [headingLines_header_append _ _ hrepo, hh]
      exact List.nodup_singleton h
    · have hbr2 : ((trimList existingContent).isEmpty
          || !containsSub (trimList (headerOf repoName)) existingContent) = false := by
        cases hx : ((trimList existingContent).isEmpty
          || !containsSub (trimList (headerOf repoName)) existingContent) with
        | false => rfl
        | true => exact absurd hx hbr
      cases hidx : indexOfSub (headerOf repoName) existingContent with
      | some i =>
        have hres : updateChangelogFile newEntry repoName existingContent
            = { content := headerOf repoName ++ newEntry ++ lit "\n\n"
                  ++ existingContent.drop (i + (headerOf repoName).length),
                hasChanges := true } := by
          simp [updateChangelogFile, hd, hbr2, hidx]
        rw [hres]
        have hdec := indexOfSub_decomp hidx
        show (headingLines (headerOf repoName ++ newEntry ++ lit "\n\n"
          ++ existingContent.drop (i + (headerOf repoName).length))).Nodup
        have hform : headerOf repoName ++ newEntry ++ lit "\n\n"
              ++ existingContent.drop (i + (headerOf repoName).length)
            = headerOf repoName ++ (newEntry ++ '\n'
                :: ('\n' :: existingContent.drop (i + (headerOf repoName).length))) := by
          rw [hnl2]
          simp
        rw [hform, headingLines_header_append _ _ hrepo, headingLines_append_nl,
          headingLines_cons_nl, hh]
        rw [List.singleton_append, List.nodup_cons]
        constructor
        · exact hnotmem (existingContent.drop (i + (headerOf repoName).length))
            ⟨existingContent.take i ++ headerOf repoName, [], by simpa using hdec⟩
        · have hdoc2 : existingContent
              = (existingContent.take i ++ (headerTrimmed repoName ++ ['\n']))
                ++ '\n' :: existingContent.drop (i + (headerOf repoName).length) := by
            conv_lhs => rw [hdec]
            rw [headerOf_eq]
            simp
          have hnd2 := hnd
          rw [hdoc2, headingLines_append_nl] at hnd2
          exact hnd2.of_append_right
      | none =>
        have hres : updateChangelogFile newEntry repoName existingContent
            = { content := headerOf repoName ++ newEntry ++ lit "\n\n"
                  ++ existingContent,
                hasChanges := true } := by
          simp [updateChangelogFile, hd, hbr2, hidx]
        rw [hres]
        show (headingLines (headerOf repoName ++ newEntry ++ lit "\n\n"
          ++ existingContent)).Nodup
        have hform : headerOf repoName ++ newEntry ++ lit "\n\n" ++ existingContent
            = headerOf repoName ++ (newEntry ++ '\n' :: ('\n' :: existingContent)) := by
          rw [hnl2]
          simp
        rw [hform, headingLines_header_append _ _ hrepo, headingLines_append_nl,
          headingLines_cons_nl, hh]
        rw [List.singleton_append, List.nodup_cons]
        exact ⟨hnotmem existingContent ⟨[], [], by simp⟩, hnd⟩

/-- Witness for the amended C2 at a concrete well-formed entry and
document. -/
theorem claim_c2_unique_headings_witness :
    (∀ c ∈ lit "R", c ≠ '\n') ∧
    findDateRange (lit "### 01.01.2024 - 07.01.2024\n- new")
      = some (lit "01.01.2024 - 07.01.2024") ∧
    headingLines (lit "### 01.01.2024 - 07.01.2024\n- new")
      = [lit "### 01.01.2024 - 07.01.2024"] ∧
    containsSub (lit "01.01.2024 - 07.01.2024") (lit "### 01.01.2024 - 07.01.2024")
      = true ∧
    (headingLines (lit "## R - Changelog\n\n### 02.02.2024 - 03.02.2024\n- old\n")).Nodup ∧
    (headingLines (updateChangelogFile (lit "### 01.01.2024 - 07.01.2024\n- new")
      (lit "R") (lit "## R - Changelog\n\n### 02.02.2024 - 03.02.2024\n- old\n")).content).Nodup :=
  ⟨by decide, by decide, by decide, by decide, by decide,
    claim_c2_unique_headings (lit "### 01.01.2024 - 07.01.2024\n- new") (lit "R")
      (lit "## R - Changelog\n\n### 02.02.2024 - 03.02.2024\n- old\n")
      (lit "01.01.2024 - 07.01.2024") (lit "### 01.01.2024 - 07.01.2024")
      (by decide) (by decide) (by decide) (by decide) (by decide)⟩

/-! ### Claim C10 -/

/-- C10: Newline-normalization idempotence.  The collapse of runs of 3+
newlines performed by `formatChangelogEntry` is idempotent on every
input. -/
theorem claim_c10_collapse_idempotent : ∀ s : Str,
    collapseNewlines (collapseNewlines s) = collapseNewlines s :=
  fun s =>
    no3_collapse_aux (collapseNewlines s).length (collapseNewlines s)
      (Nat.le_refl _) (collapse_no3_aux s.length s (Nat.le_refl _))

/-! ### Claim C5 -/

/-- C5: Date-range computation.  For a non-empty commit sequence (newest
first), the date range is the `pl-PL` day-month-year rendering of the last
element's date (the oldest commit), then `" - "`, then the rendering of
the first element's date (the newest commit). -/
theorem claim_c5_date_range (commits : List Commit) (hne : commits ≠ []) :
    dateRangeOf commits
      = fmtJsDate ((commits.getLast hne).date) ++ lit " - "
        ++ fmtJsDate ((commits.head hne).date) := by
  unfold dateRangeOf
  rw [List.getLast?_eq_getLast commits hne, List.head?_eq_head hne]

/-- Witness for C5 at the claim's concrete commits: dates `2024-01-07`
(newest, first) and `2024-01-01` (oldest, last) give
`01.01.2024 - 07.01.2024`. -/
theorem claim_c5_date_range_witness :
    ([{ sha := lit "abc1234", message := lit "fix bug",
        date := some (lit "2024-01-07"), author := lit "a" },
      { sha := lit "def5678", message := lit "add feature",
        date := some (lit "2024-01-01"), author := lit "b" }] : List Commit) ≠ [] ∧
    dateRangeOf
      [{ sha := lit "abc1234", message := lit "fix bug",
         date := some (lit "2024-01-07"), author := lit "a" },
       { sha := lit "def5678", message := lit "add feature",
         date := some (lit "2024-01-01"), author := lit "b" }]
      = lit "01.01.2024 - 07.01.2024" ∧
    dateRangeOf
      [{ sha := lit "abc1234", message := lit "fix bug",
         date := some (lit "2024-01-07"), author := lit "a" },
       { sha := lit "def5678", message := lit "add feature",
         date := some (lit "2024-01-01"), author := lit "b" }]
      = fmtJsDate (some (lit "2024-01-01")) ++ lit " - "
        ++ fmtJsDate (some (lit "2024-01-07")) := by
  refine ⟨by decide, by decide, ?_⟩
  exact claim_c5_date_range
    [{ sha := lit "abc1234", message := lit "fix bug",
       date := some (lit "2024-01-07"), author := lit "a" },
     { sha := lit "def5678", message := lit "add feature",
       date := some (lit "2024-01-01"), author := lit "b" }] (by decide)

/-! ### Claim C6 -/

/-- C6 counterexample: the code uses JavaScript `||`, which treats a
present-but-empty author date as falsy, so the projected date is the
committer's — not the author's as the claim ("author date if present")
requires. -/
theorem claim_c6_counterexample :
    (getCommitsForChangelog
      [{ sha := lit "s",
         commit :=
           { message := lit "m",
             author := { date := some (lit ""), name := lit "alice" },
             committer := { date := some (lit "2024-01-01T00:00:00Z"),
                            name := lit "bob" } } }]).map Commit.date
      = [some (lit "2024-01-01T00:00:00Z")] ∧
    specAuthorDateFallback (some (lit "")) (some (lit "2024-01-01T00:00:00Z"))
      = some (lit "") ∧
    (some (lit "") : Option Str) ≠ some (lit "2024-01-01T00:00:00Z") :=
  ⟨by decide, by decide, by decide⟩

/-- C6 (amended): the projection keeps length and order, and each element
is `{sha, firstLine(message), authorDate-if-present-AND-non-empty else
committerDate, authorName}`. -/
theorem claim_c6_commit_projection (raws : List RawCommit) :
    (getCommitsForChangelog raws).length = raws.length ∧
    ∀ i : Nat, (getCommitsForChangelog raws).get? i
      = (raws.get? i).map (fun c =>
          { sha := c.sha
            message := firstLineStr c.commit.message
            date := jsOrStr c.commit.author.date c.commit.committer.date
            author := c.commit.author.name }) := by
  refine ⟨by simp [getCommitsForChangelog], ?_⟩
  intro i
  simp [getCommitsForChangelog, List.get?_map]

/-! ### Claim C7 -/

/-- C7 counterexample: a 409 conflict from ref creation is NOT tolerated —
`createBranch` propagates the error instead of returning the existing
branch tip, contradicting the claim that 409 and 422 are both treated as
"already exists". -/
theorem claim_c7_counterexample :
    createBranch api409 (lit "changelog") (lit "main")
      = Except.error { status := 409, msg := lit "conflict" } ∧
    createBranch api409 (lit "changelog") (lit "main")
      ≠ Except.ok (lit "tipsha") := by
  constructor
  · rfl
  · intro h
    cases h

/-- C7 (amended): only a 422 error from ref creation is tolerated — then
`createBranch` returns the existing branch's tip SHA; every other
creation error (including 409) propagates. -/
theorem claim_c7_branch_exists (api : GitApi) (branchName baseBranch : Str)
    (r : RefObj) (e : ApiError)
    (hbase : api.getRef (lit "heads/" ++ baseBranch) = Except.ok r)
    (hcreate : api.createRef (lit "refs/heads/" ++ branchName) r.sha
      = Except.error e) :
    (e.status = 422 →
      createBranch api branchName baseBranch
        = (api.getRef (lit "heads/" ++ branchName)).map RefObj.sha) ∧
    (e.status ≠ 422 → createBranch api branchName baseBranch = Except.error e) := by
  constructor
  · intro h422
    simp only [createBranch, hbase, hcreate, if_pos h422]
    cases hx : api.getRef (lit "heads/" ++ branchName) with
    | ok v => simp [Except.map]
    | error e2 => simp [Except.map]
  · intro hne
    simp only [createBranch, hbase, hcreate, if_neg hne]

/-- Witness for the amended C7: with a 422 conflict, `createBranch`
returns the existing branch's tip. -/
theorem claim_c7_branch_exists_witness :
    api422.getRef (lit "heads/" ++ lit "main") = Except.ok { sha := lit "basesha" } ∧
    api422.createRef (lit "refs/heads/" ++ lit "changelog") (lit "basesha")
      = Except.error { status := 422, msg := lit "exists" } ∧
    createBranch api422 (lit "changelog") (lit "main") = Except.ok (lit "tipsha") := by
  refine ⟨rfl, rfl, ?_⟩
  have h := claim_c7_branch_exists api422 (lit "changelog") (lit "main")
    { sha := lit "basesha" } { status := 422, msg := lit "exists" } rfl rfl
  rw [h.1 rfl]
  rfl

/-! ### Claim C8 -/

/-- C8: Summarizer failure conditions.  `generateChangelogWithAI` errors
exactly when the commit list is empty, the API key is absent, or the
service call errors; in the first two cases no service call is made, and
the service is never invoked more than once (no retry). -/
theorem claim_c8_generation_errors (commits : List Commit) (apiKey : Str)
    (svc : Str → Except Str Str) :
    ((∃ e, (generateChangelogWithAI commits apiKey svc).1 = Except.error e)
      ↔ (commits = [] ∨ apiKey = []
          ∨ ∃ e, svc (promptFor commits) = Except.error e)) ∧
    (commits = [] ∨ apiKey = [] →
      (generateChangelogWithAI commits apiKey svc).2 = 0) ∧
    (generateChangelogWithAI commits apiKey svc).2 ≤ 1 := by
  by_cases hc : commits.isEmpty
  · have hcc : commits = [] := by
      cases hx : commits with
      | nil => rfl
      | cons a t => rw [hx] at hc; exact absurd hc (by simp)
    subst hcc
    exact ⟨⟨fun _ => Or.inl rfl, fun _ => ⟨_, rfl⟩⟩, fun _ => rfl, Nat.zero_le 1⟩
  · have hne : commits ≠ [] := by
      intro hx
      rw [hx] at hc
      exact hc rfl
    by_cases hk : apiKey.isEmpty
    · have hkk : apiKey = [] := by
        cases hx : apiKey with
        | nil => rfl
        | cons a t => rw [hx] at hk; exact absurd hk (by simp)
      have hres : generateChangelogWithAI commits apiKey svc
          = (Except.error (lit "Google API key is required"), 0) := by
        simp [generateChangelogWithAI, hc, hk]
      rw [hres]
      exact ⟨⟨fun _ => Or.inr (Or.inl hkk), fun _ => ⟨_, rfl⟩⟩,
        fun _ => rfl, Nat.zero_le 1⟩
    · have hkne : apiKey ≠ [] := by
        intro hx
        rw [hx] at hk
        exact hk rfl
      cases hs : svc (promptFor commits) with
      | ok t =>
        have hres : generateChangelogWithAI commits apiKey svc
            = (Except.ok (trimList t), 1) := by
          simp [generateChangelogWithAI, hc, hk, hs]
        rw [hres]
        refine ⟨⟨?_, ?_⟩, ?_, Nat.le_refl 1⟩
        · rintro ⟨e, he⟩
          cases he
        · rintro (h1 | h2 | ⟨e, he⟩)
          · exact absurd h1 hne
          · exact absurd h2 hkne
          · cases he
        · rintro (h1 | h2)
          · exact absurd h1 hne
          · exact absurd h2 hkne
      | error e0 =>
        have hres : generateChangelogWithAI commits apiKey svc
            = (Except.error e0, 1) := by
          simp [generateChangelogWithAI, hc, hk, hs]
        rw [hres]
        refine ⟨⟨fun _ => Or.inr (Or.inr ⟨e0, rfl⟩), fun _ => ⟨e0, rfl⟩⟩, ?_,
          Nat.le_refl 1⟩
        rintro (h1 | h2)
        · exact absurd h1 hne
        · exact absurd h2 hkne

/-- Witness for C8: with no commits the call fails and the service is
never invoked. -/
theorem claim_c8_generation_errors_witness :
    (generateChangelogWithAI ([] : List Commit) (lit "key")
      (fun _ => Except.ok [])).2 = 0 ∧
    (∃ e, (generateChangelogWithAI ([] : List Commit) (lit "key")
      (fun _ => Except.ok [])).1 = Except.error e) := by
  have h := claim_c8_generation_errors ([] : List Commit) (lit "key")
    (fun _ => Except.ok [])
  exact ⟨h.2.1 (Or.inl rfl), h.1.mpr (Or.inl rfl)⟩

/-! ### Claim C9 -/

/-- C9: Benign early exits.  With valid tokens: if the fetch returns zero
commits the run succeeds having performed only the fetch (no summarizer,
merger or publisher call); and if the pipeline reaches the merger and it
reports `hasChanges = false`, the run succeeds having performed only
fetch, summarize, file read and merge — no branch creation, file write or
pull-request creation occurs in either case. -/
theorem claim_c9_early_exits (env : RunEnv)
    (htok : env.githubToken ≠ [])
    (hkey : env.googleApiKey ≠ []) :
    (env.fetchResult = Except.ok [] →
      run env = ([RunEvent.fetchCommits], RunOutcome.success none)) ∧
    (∀ raws aiText fileOpt,
      env.fetchResult = Except.ok raws →
      raws ≠ [] →
      (generateChangelogWithAI (getCommitsForChangelog raws)
        env.googleApiKey env.svc).1 = Except.ok aiText →
      env.getFileResult = Except.ok fileOpt →
      (updateChangelogFile (formatChangelogEntry aiText env.repoName)
        env.repoName (fileOpt.getD [])).hasChanges = false →
      run env = ([RunEvent.fetchCommits, RunEvent.genAI, RunEvent.getFile,
        RunEvent.merge], RunOutcome.success none)) := by
  have ht : env.githubToken.isEmpty = false := by
    cases hg : env.githubToken with
    | nil => exact absurd hg htok
    | cons a b => rfl
  have hk : env.googleApiKey.isEmpty = false := by
    cases hg : env.googleApiKey with
    | nil => exact absurd hg hkey
    | cons a b => rfl
  constructor
  · intro hf
    simp [run, ht, hk, hf]
  · intro raws aiText fileOpt hf hne hai hfile hmerge
    have hne2 : raws.isEmpty = false := by
      cases hg : raws with
      | nil => exact absurd hg hne
      | cons a b => rfl
    simp [run, ht, hk, hf, hne2, hai, hfile, hmerge]

/-- Witness for C9: the zero-commit early exit on a concrete environment. -/
theorem claim_c9_early_exits_witness :
    envZero.githubToken ≠ [] ∧ envZero.googleApiKey ≠ [] ∧
    envZero.fetchResult = Except.ok [] ∧
    run envZero = ([RunEvent.fetchCommits], RunOutcome.success none) :=
  ⟨by decide, by decide, rfl,
    (claim_c9_early_exits envZero (by decide) (by decide)).1 rfl⟩
